import Mathlib

/-!
Verification of `project1.py` (HTML-table → CSV converter).

The program is embedded shallowly: Python strings become `List Char`,
Python's `str.find` (with its `-1` sentinel and slice-style clamping of the
start index) becomes `pyFind : Str → Str → Int → Int`, Python slices become
`pySlice`, and the three scanning loops (`extract_tables`, `parse_table`,
`clean_html`) become fuel-indexed loops.  The cell-scanning loop of
`parse_table` genuinely fails to terminate on some inputs, so the loops that
can diverge return `Option` (`none` = the Python loop has not finished within
the given fuel).
-/

set_option maxHeartbeats 1000000

abbrev Str := List Char

/-- Python index adjustment used by slices and by `find`'s start argument:
a negative index counts from the end (clamped at 0), a nonnegative one is
clamped at the length. -/
def pyIdx (n : Nat) (i : Int) : Nat :=
  if i < 0 then (i + n).toNat else min i.toNat n

/-- Python slice `s[a:b]`. -/
def pySlice (s : Str) (a b : Int) : Str :=
  (s.take (pyIdx s.length b)).drop (pyIdx s.length a)

/-- Python slice `s[:b]`. -/
def pySliceTo (s : Str) (b : Int) : Str := s.take (pyIdx s.length b)

/-- Python slice `s[a:]`. -/
def pySliceFrom (s : Str) (a : Int) : Str := s.drop (pyIdx s.length a)

/-- Index of the first occurrence of `pat` in `s` (`none` if absent). -/
def firstOccurAux (pat : Str) (s : Str) : Option Nat :=
  if pat.isPrefixOf s then some 0
  else
    match s with
    | [] => none
    | _ :: s' => (firstOccurAux pat s').map (· + 1)

/-- Python `s.find(pat, start)`: smallest index `k ≥ start` (after slice-style
adjustment of `start`) such that `pat` occurs at `k`; `-1` if there is none. -/
def pyFind (s pat : Str) (start : Int) : Int :=
  let st := pyIdx s.length start
  match firstOccurAux pat (s.drop st) with
  | none => -1
  | some k => ((k + st : Nat) : Int)

/-- The ASCII whitespace characters stripped by Python's `str.strip()`. -/
def pyIsSpace (c : Char) : Bool :=
  c = ' ' || c = '\t' || c = '\n' || c = '\r' || c = '\x0b' || c = '\x0c'

/-- Python `s.strip()`. -/
def pyStrip (s : Str) : Str :=
  ((s.dropWhile pyIsSpace).reverse.dropWhile pyIsSpace).reverse

/-- Python `s.replace(a, b)` for single characters `a`, `b`. -/
def replaceChar (a b : Char) (s : Str) : Str :=
  s.map fun c => if c = a then b else c

/-- Number of positions at which `pat` occurs in `s`; used to state "the
number of `<tr>` blocks in the source document" (for `<tr>`-style patterns,
which cannot overlap themselves, this is the usual occurrence count). -/
def countOccur (pat : Str) : Str → Nat
  | [] => 0
  | c :: s => (if pat.isPrefixOf (c :: s) then 1 else 0) + countOccur pat s

/-! ## Translation of `extract_tables` (project1.py lines 43–57) -/

/-- The `while True` loop of `extract_tables`.  One fuel unit per iteration;
the loop always terminates (the scan position advances by at least 8 per
round), and `extract_tables` supplies more fuel than any run can use, which
`extractLoop_stable` below makes precise. -/
def extractLoop (html : Str) : Nat → Int → List Str → List Str
  | 0, _, acc => acc.reverse
  | fuel + 1, pos, acc =>
    let start := pyFind html "<table".data pos
    if start = -1 then acc.reverse
    else
      let e := pyFind html "</table>".data start
      if e = -1 then acc.reverse
      else extractLoop html fuel (e + 8) (pySlice html start (e + 8) :: acc)

/-- `extract_tables(html)`: all `<table> ... </table>` blocks. -/
def extract_tables (html : Str) : List Str :=
  extractLoop html (html.length + 1) 0 []

/-! ## Translation of `clean_html` (project1.py lines 94–102) -/

/-- The tag-removing `while` loop of `clean_html`.  `none` means the given
fuel was exhausted before the loop finished; `clean_terminates` below shows
that fuel `text.length + 1` always suffices. -/
def stripTagsFuel : Nat → Str → Option Str
  | 0, _ => none
  | fuel + 1, text =>
    if '<' ∈ text ∧ '>' ∈ text then
      let lt := pyFind text "<".data 0
      let gt := pyFind text ">".data lt
      if lt = -1 ∨ gt = -1 then some text
      else stripTagsFuel fuel (pySliceTo text lt ++ pySliceFrom text (gt + 1))
    else some text

/-- `clean_html(text)`: strip `<...>` spans, then replace `\n` and `\r` by
spaces and strip surrounding whitespace.  (The `getD` default is never used:
the loop provably finishes within `text.length + 1` rounds.) -/
def clean_html (text : Str) : Str :=
  pyStrip (replaceChar '\r' ' ' (replaceChar '\n' ' '
    ((stripTagsFuel (text.length + 1) text).getD text)))

/-! ## Translation of `parse_table` (project1.py lines 59–92) -/

/-- The inner cell-scanning `while True` loop of `parse_table` over one row's
raw HTML.  `none` means the fuel ran out; this loop can genuinely diverge
(see `C9`), so no fuel bound is universally sufficient. -/
def cellLoop (row_html : Str) : Nat → Int → List Str → Option (List Str)
  | 0, _, _ => none
  | fuel + 1, cell_pos, cells =>
    let td_start := pyFind row_html "<td".data cell_pos
    let th_start := pyFind row_html "<th".data cell_pos
    if td_start = -1 ∧ th_start = -1 then some cells.reverse
    else if td_start ≠ -1 ∧ (td_start < th_start ∨ th_start = -1) then
      let cell_start := pyFind row_html ">".data td_start + 1
      let cell_end := pyFind row_html "</td>".data cell_start
      let cell := pyStrip (pySlice row_html cell_start cell_end)
      cellLoop row_html fuel (cell_end + 5) (clean_html cell :: cells)
    else
      let cell_start := pyFind row_html ">".data th_start + 1
      let cell_end := pyFind row_html "</th>".data cell_start
      let cell := pyStrip (pySlice row_html cell_start cell_end)
      cellLoop row_html fuel (cell_end + 5) (clean_html cell :: cells)

/-- The outer row-scanning loop of `parse_table`. -/
def rowLoop (table_html : Str) : Nat → Int → List (List Str) → Option (List (List Str))
  | 0, _, _ => none
  | fuel + 1, pos, rows =>
    let row_start := pyFind table_html "<tr".data pos
    if row_start = -1 then some rows.reverse
    else
      let row_end := pyFind table_html "</tr>".data row_start
      if row_end = -1 then some rows.reverse
      else
        let row_html := pySlice table_html row_start row_end
        match cellLoop row_html (row_html.length + 1) 0 [] with
        | none => none
        | some cells => rowLoop table_html fuel (row_end + 5) (cells :: rows)

/-- `parse_table(table_html)`: the grid of cleaned cell strings, or `none`
if the (genuinely possible) infinite loop is hit. -/
def parse_table (table_html : Str) : Option (List (List Str)) :=
  rowLoop table_html (table_html.length + 1) 0 []

/-! ## Translation of `save_csv` (project1.py lines 104–110) -/

/-- Python `cell.replace(Chr.dq, Chr.dq ++ Chr.dq)`: double every `"`. -/
def escQuote : Str → Str
  | [] => []
  | c :: s => if c = '"' then '"' :: '"' :: escQuote s else c :: escQuote s

/-- One CSV field: the cell wrapped in double quotes, inner quotes doubled. -/
def csvField (cell : Str) : Str := '"' :: (escQuote cell ++ ['"'])

/-- One CSV line as written by `save_csv`: fields joined by commas plus the
trailing newline of `f.write(line + "\n")`. -/
def csvLine (row : List Str) : Str :=
  (List.intercalate [','] (row.map csvField)) ++ ['\n']

/-- The full contents `save_csv(rows, ...)` writes to its file. -/
def save_csv (rows : List (List Str)) : Str :=
  (rows.map csvLine).flatten

/-! ## Translation of `main` (project1.py lines 112–129) -/

/-- How a run of `main` ends.  The three `exit*` outcomes are the paths that
print a message and call `sys.exit(1)`; `finished` carries the
`(filename, contents)` pairs of the CSV files written. -/
inductive MainOutcome where
  | exitUsage : MainOutcome
  | exitSourceNotFound : MainOutcome
  | exitNoTables : MainOutcome
  | finished : List (Str × Str) → MainOutcome
deriving DecidableEq

/-- `f"output_{i}.csv"`. -/
def output_filename (i : Nat) : Str := ("output_" ++ toString i ++ ".csv").data

/-- The `for i, table_html in enumerate(tables, start=1)` loop of `main`:
parse each table, emit a file for each non-empty grid.  `none` if some
`parse_table` call diverges (in the real program the process then hangs). -/
def filesLoop : Nat → List Str → Option (List (Str × Str))
  | _, [] => some []
  | i, t :: ts =>
    match parse_table t with
    | none => none
    | some rows =>
      match filesLoop (i + 1) ts with
      | none => none
      | some rest =>
        some (if rows = [] then rest else (output_filename i, save_csv rows) :: rest)

/-- `main`, with I/O abstracted: `argc` is `len(sys.argv)` and `src` is the
result of `fetch_html` (`none` models the "source not found" branch of
`fetch_html`, `some html` the successfully fetched/read document). -/
def main_model (argc : Nat) (src : Option Str) : Option MainOutcome :=
  if argc ≠ 2 then some MainOutcome.exitUsage
  else
    match src with
    | none => some MainOutcome.exitSourceNotFound
    | some html =>
      let tables := extract_tables html
      if tables = [] then some MainOutcome.exitNoTables
      else (filesLoop 1 tables).map MainOutcome.finished

/-! ## Auxiliary definitions used only in statements -/

/-- Standard CSV unescaping of the inside of a quoted field: collapse each
doubled double-quote into a single one. -/
def collapseQuotes : Str → Str
  | [] => []
  | [c] => [c]
  | c :: d :: s =>
    if c = '"' ∧ d = '"' then '"' :: collapseQuotes s else c :: collapseQuotes (d :: s)

/-- Standard CSV unescaping of a whole written field: strip the outer quotes
and collapse doubled quotes. -/
def unescape_field (f : Str) : Str := collapseQuotes ((f.drop 1).dropLast)

/-- A row fragment with an unclosed `<td>` cell; `parse_table` slices exactly
this row out of `badTable`. -/
def badRow : Str := "<tr><td>x".data

/-- A table whose single row has a `<td>` cell with no closing `</td>`:
a concrete input on which the Python cell loop runs forever. -/
def badTable : Str := "<table><tr><td>x</tr></table>".data

/-! ## Well-formed rendered tables (used to state C1)

The spec's "well-formed input containing exactly one table block" is
formalised as a document `pre ++ renderTable g ++ post` where the grid `g`
renders each row as `<tr>` / `</tr>` around `<td>` / `</td>` cells, cell
texts contain no `<` or `>`, and the surrounding text contains no `<`. -/

/-- Render one cell. -/
def renderCell (c : Str) : Str := "<td>".data ++ c ++ "</td>".data

/-- Render a row's cells. -/
def cellsJoin (cs : List Str) : Str := (cs.map renderCell).flatten

/-- Render one row. -/
def renderRow (r : List Str) : Str := "<tr>".data ++ cellsJoin r ++ "</tr>".data

/-- Render the rows of a grid. -/
def rowsJoin (g : List (List Str)) : Str := (g.map renderRow).flatten

/-- Render a whole table element. -/
def renderTable (g : List (List Str)) : Str :=
  "<table>".data ++ rowsJoin g ++ "</table>".data

/-- A cell text that cannot interfere with the substring scans. -/
def CellOk (c : Str) : Prop := '<' ∉ c ∧ '>' ∉ c

/-- All cells of a grid are scan-safe. -/
def GridOk (g : List (List Str)) : Prop := ∀ r ∈ g, ∀ c ∈ r, CellOk c

/-- `clash pat a = true` means `pat` mismatches `a` at some position before
either runs out; then `pat` is not a prefix of `a ++ t` for any `t`. -/
def clash : Str → Str → Bool
  | [], _ => false
  | _ :: _, [] => false
  | p :: ps, x :: xs => p != x || clash ps xs

/-! ## Let-free unfolding equations for the loops -/

theorem stripTagsFuel_succ (f : Nat) (t : Str) :
    stripTagsFuel (f + 1) t =
      if '<' ∈ t ∧ '>' ∈ t then
        if pyFind t "<".data 0 = -1 ∨ pyFind t ">".data (pyFind t "<".data 0) = -1 then
          some t
        else
          stripTagsFuel f
            (pySliceTo t (pyFind t "<".data 0) ++
              pySliceFrom t (pyFind t ">".data (pyFind t "<".data 0) + 1))
      else some t := rfl

theorem extractLoop_succ (html : Str) (f : Nat) (pos : Int) (acc : List Str) :
    extractLoop html (f + 1) pos acc =
      if pyFind html "<table".data pos = -1 then acc.reverse
      else
        if pyFind html "</table>".data (pyFind html "<table".data pos) = -1 then acc.reverse
        else
          extractLoop html f (pyFind html "</table>".data (pyFind html "<table".data pos) + 8)
            (pySlice html (pyFind html "<table".data pos)
               (pyFind html "</table>".data (pyFind html "<table".data pos) + 8) :: acc) := rfl

theorem cellLoop_succ (row_html : Str) (f : Nat) (cell_pos : Int) (cells : List Str) :
    cellLoop row_html (f + 1) cell_pos cells =
      if pyFind row_html "<td".data cell_pos = -1 ∧ pyFind row_html "<th".data cell_pos = -1 then
        some cells.reverse
      else
        if pyFind row_html "<td".data cell_pos ≠ -1 ∧
            (pyFind row_html "<td".data cell_pos < pyFind row_html "<th".data cell_pos ∨
              pyFind row_html "<th".data cell_pos = -1) then
          cellLoop row_html f
            (pyFind row_html "</td>".data
               (pyFind row_html ">".data (pyFind row_html "<td".data cell_pos) + 1) + 5)
            (clean_html (pyStrip (pySlice row_html
               (pyFind row_html ">".data (pyFind row_html "<td".data cell_pos) + 1)
               (pyFind row_html "</td>".data
                 (pyFind row_html ">".data (pyFind row_html "<td".data cell_pos) + 1)))) :: cells)
        else
          cellLoop row_html f
            (pyFind row_html "</th>".data
               (pyFind row_html ">".data (pyFind row_html "<th".data cell_pos) + 1) + 5)
            (clean_html (pyStrip (pySlice row_html
               (pyFind row_html ">".data (pyFind row_html "<th".data cell_pos) + 1)
               (pyFind row_html "</th>".data
                 (pyFind row_html ">".data (pyFind row_html "<th".data cell_pos) + 1)))) :: cells) := rfl

theorem rowLoop_succ (table_html : Str) (f : Nat) (pos : Int) (rows : List (List Str)) :
    rowLoop table_html (f + 1) pos rows =
      if pyFind table_html "<tr".data pos = -1 then some rows.reverse
      else
        if pyFind table_html "</tr>".data (pyFind table_html "<tr".data pos) = -1 then
          some rows.reverse
        else
          match
            cellLoop
              (pySlice table_html (pyFind table_html "<tr".data pos)
                (pyFind table_html "</tr>".data (pyFind table_html "<tr".data pos)))
              ((pySlice table_html (pyFind table_html "<tr".data pos)
                (pyFind table_html "</tr>".data (pyFind table_html "<tr".data pos))).length + 1)
              0 [] with
          | none => none
          | some cells =>
            rowLoop table_html f
              (pyFind table_html "</tr>".data (pyFind table_html "<tr".data pos) + 5)
              (cells :: rows) := rfl

/-! ## Basic facts about `firstOccurAux`, `pyFind`, `pyIdx` -/

theorem isPrefixOf_length {p s : Str} (h : p.isPrefixOf s = true) : p.length ≤ s.length := by
  induction p generalizing s with
  | nil => simp
  | cons a as ih =>
    cases s with
    | nil => simp [List.isPrefixOf] at h
    | cons b bs =>
      simp only [List.isPrefixOf, Bool.and_eq_true, beq_iff_eq] at h
      have := ih h.2
      simp only [List.length_cons]
      omega

theorem mem_of_isPrefixOf_single {c : Char} {s : Str} (h : List.isPrefixOf [c] s = true) :
    c ∈ s := by
  cases s with
  | nil => simp [List.isPrefixOf] at h
  | cons b bs =>
    simp only [List.isPrefixOf, Bool.and_eq_true, beq_iff_eq] at h
    simp [h.1]

theorem foa_some_isPrefixOf {pat s : Str} {k : Nat} (h : firstOccurAux pat s = some k) :
    pat.isPrefixOf (s.drop k) = true := by
  induction s generalizing k with
  | nil =>
    rw [firstOccurAux] at h
    split at h
    · simp only [Option.some.injEq] at h
      subst h
      simpa using (by assumption : pat.isPrefixOf [] = true)
    · simp at h
  | cons c s' ih =>
    rw [firstOccurAux] at h
    split at h
    · simp only [Option.some.injEq] at h
      subst h
      simpa using (by assumption : pat.isPrefixOf (c :: s') = true)
    · simp only [Option.map_eq_some'] at h
      obtain ⟨j, hj, hk⟩ := h
      subst hk
      simpa [List.drop_succ_cons] using ih hj

theorem pyIdx_coe (n k : Nat) : pyIdx n (k : Int) = min k n := by
  simp [pyIdx]

theorem pyIdx_zero (n : Nat) : pyIdx n 0 = 0 := by
  simp [pyIdx]

theorem pyFind_cases (s pat : Str) (st : Int) :
    pyFind s pat st = -1 ∨ ∃ k : Nat, pyFind s pat st = (k : Int) := by
  rw [pyFind]
  cases firstOccurAux pat (s.drop (pyIdx s.length st)) with
  | none => left; rfl
  | some j => right; exact ⟨_, rfl⟩

theorem pyFind_eq_coe {s pat : Str} {st : Int} {k : Nat} (h : pyFind s pat st = (k : Int)) :
    pat.isPrefixOf (s.drop k) = true ∧ pyIdx s.length st ≤ k := by
  rw [pyFind] at h
  cases hf : firstOccurAux pat (s.drop (pyIdx s.length st)) with
  | none => rw [hf] at h; dsimp only at h; exact absurd h (by omega)
  | some j =>
    rw [hf] at h
    dsimp only at h
    have hk : j + pyIdx s.length st = k := by exact_mod_cast h
    have hpre := foa_some_isPrefixOf hf
    rw [List.drop_drop] at hpre
    constructor
    · have hof : pyIdx s.length st + j = k := by omega
      rwa [hof] at hpre
    · omega

/-- A found occurrence of a nonempty pattern starts strictly inside the string. -/
theorem pyFind_coe_lt_length {s pat : Str} {st : Int} {k : Nat}
    (h : pyFind s pat st = (k : Int)) (hpat : pat ≠ []) : k < s.length := by
  have h1 := (pyFind_eq_coe h).1
  have h2 := isPrefixOf_length h1
  have h3 : 1 ≤ pat.length := by cases pat with | nil => simp at hpat | cons a l => simp
  have h4 : (s.drop k).length = s.length - k := by simp
  omega

/-! ## CSV escaping round-trip -/

theorem escQuote_eq_nil {s : Str} (h : escQuote s = []) : s = [] := by
  cases s with
  | nil => rfl
  | cons c s' =>
    rw [escQuote] at h
    split at h <;> simp at h

theorem collapseQuotes_escQuote (cell : Str) : collapseQuotes (escQuote cell) = cell := by
  induction cell with
  | nil => rfl
  | cons x s ih =>
    by_cases hx : x = '"'
    · subst hx
      rw [escQuote, if_pos rfl, collapseQuotes, if_pos ⟨rfl, rfl⟩, ih]
    · rw [escQuote, if_neg hx]
      cases hs : escQuote s with
      | nil =>
        have := escQuote_eq_nil hs
        subst this
        rfl
      | cons y ys =>
        rw [collapseQuotes, if_neg (by intro hc; exact hx hc.1), ← hs, ih]

theorem mem_pyStrip {c : Char} {s : Str} (h : c ∈ pyStrip s) : c ∈ s := by
  rw [pyStrip] at h
  rw [List.mem_reverse] at h
  have h2 := (List.dropWhile_sublist pyIsSpace).subset h
  rw [List.mem_reverse] at h2
  exact (List.dropWhile_sublist pyIsSpace).subset h2

theorem mem_replaceChar {c a b : Char} {s : Str} (h : c ∈ replaceChar a b s) :
    c = b ∨ (c ∈ s ∧ c ≠ a) := by
  rw [replaceChar, List.mem_map] at h
  obtain ⟨d, hd, hdc⟩ := h
  by_cases hda : d = a
  · left; rw [← hdc, if_pos hda]
  · right
    rw [if_neg hda] at hdc
    subst hdc
    exact ⟨hd, hda⟩

/-! ## Termination facts for the `clean_html` loop -/

/-- Each iteration of the tag-stripping loop removes at least one character. -/
theorem strip_remainder_length {t : Str} {l g : Nat}
    (hl : pyFind t "<".data 0 = (l : Int))
    (hg : pyFind t ">".data ((l : Nat) : Int) = (g : Int)) :
    (pySliceTo t (l : Int) ++ pySliceFrom t ((g : Int) + 1)).length < t.length := by
  have hlt := pyFind_coe_lt_length hl (by simp)
  have hgt := pyFind_coe_lt_length hg (by simp)
  have hlg := (pyFind_eq_coe hg).2
  rw [pyIdx_coe] at hlg
  have hlg2 : l ≤ g := by omega
  simp only [List.length_append, pySliceTo, pySliceFrom, List.length_take, List.length_drop]
  rw [pyIdx_coe]
  have : ((g : Int) + 1) = ((g + 1 : Nat) : Int) := by omega
  rw [this, pyIdx_coe]
  omega

theorem stripTags_some_of_fuel :
    ∀ (fuel : Nat) (t : Str), t.length < fuel → ∃ r, stripTagsFuel fuel t = some r := by
  intro fuel
  induction fuel with
  | zero => intro t h; omega
  | succ f ih =>
    intro t h
    rw [stripTagsFuel_succ]
    by_cases hc : '<' ∈ t ∧ '>' ∈ t
    · rw [if_pos hc]
      by_cases hb : pyFind t "<".data 0 = -1 ∨ pyFind t ">".data (pyFind t "<".data 0) = -1
      · rw [if_pos hb]; exact ⟨t, rfl⟩
      · rw [if_neg hb]
        push_neg at hb
        obtain ⟨hl, hg⟩ := hb
        obtain hcl | ⟨l, hcl⟩ := pyFind_cases t "<".data 0
        · exact absurd hcl hl
        obtain hcg | ⟨g, hcg⟩ := pyFind_cases t ">".data (pyFind t "<".data 0)
        · exact absurd hcg hg
        rw [hcl] at hcg
        have hlen := strip_remainder_length hcl hcg
        rw [hcl, hcg]
        exact ih _ (by omega)
    · rw [if_neg hc]; exact ⟨t, rfl⟩

theorem stripTags_mono :
    ∀ (f f' : Nat) (t r : Str), stripTagsFuel f t = some r → f ≤ f' →
      stripTagsFuel f' t = some r := by
  intro f
  induction f with
  | zero => intro f' t r h; rw [stripTagsFuel] at h; simp at h
  | succ f ih =>
    intro f' t r h hle
    cases f' with
    | zero => omega
    | succ f'' =>
      rw [stripTagsFuel_succ] at h ⊢
      by_cases hc : '<' ∈ t ∧ '>' ∈ t
      · rw [if_pos hc] at h ⊢
        by_cases hb : pyFind t "<".data 0 = -1 ∨ pyFind t ">".data (pyFind t "<".data 0) = -1
        · rwa [if_pos hb] at h ⊢
        · rw [if_neg hb] at h ⊢
          exact ih _ _ _ h (by omega)
      · rwa [if_neg hc] at h ⊢

/-! ## Claim theorems (C2, C3, C4, C7, C8, C9, C10) -/

/-- C2: `save_csv` wraps every cell in double quotes with embedded quotes
doubled, joins cells with commas and terminates each row with a newline; the
cell `He said "hi"` is written as `"He said ""hi"""`, and every written field
is recoverable by standard CSV-unescaping (strip the outer quotes, collapse
doubled quotes), giving a round-trip identity. -/
theorem C2_csv_quote_roundtrip :
    csvField "He said \"hi\"".data = "\"He said \"\"hi\"\"\"".data ∧
    save_csv [["He said \"hi\"".data]] = "\"He said \"\"hi\"\"\"\n".data ∧
    ∀ cell : Str, unescape_field (csvField cell) = cell := by
  refine ⟨rfl, rfl, fun cell => ?_⟩
  rw [unescape_field, csvField]
  simp only [List.drop_succ_cons, List.drop_zero]
  rw [List.dropLast_concat]
  exact collapseQuotes_escQuote cell

/-- C3: the cell cleaner turns `<b>Bold</b> text` into `Bold text` and
`line1\nline2` into `line1 line2`, and its output never contains a newline or
carriage-return character (every `\n` and `\r` is replaced by a space). -/
theorem C3_clean_html_cells :
    clean_html "<b>Bold</b> text".data = "Bold text".data ∧
    clean_html "line1\nline2".data = "line1 line2".data ∧
    ∀ t : Str, '\n' ∉ clean_html t ∧ '\r' ∉ clean_html t := by
  refine ⟨rfl, rfl, fun t => ⟨fun h => ?_, fun h => ?_⟩⟩
  · rw [clean_html] at h
    have h1 := mem_pyStrip h
    rcases mem_replaceChar h1 with h2 | ⟨h2, _⟩
    · simp at h2
    · rcases mem_replaceChar h2 with h3 | ⟨_, h3⟩
      · simp at h3
      · exact h3 rfl
  · rw [clean_html] at h
    have h1 := mem_pyStrip h
    rcases mem_replaceChar h1 with h2 | ⟨_, h2⟩
    · simp at h2
    · exact h2 rfl

/-- C10: the `clean_html` loop terminates on every input string: fuel
`t.length + 1` always suffices, because each iteration that does not exit
removes at least one character (the located `<...>` span). -/
theorem C10_clean_loop_terminates :
    (∀ t : Str, (stripTagsFuel (t.length + 1) t).isSome = true) ∧
    ∀ (t : Str) (l g : Nat), pyFind t "<".data 0 = (l : Int) →
      pyFind t ">".data ((l : Nat) : Int) = (g : Int) →
      (pySliceTo t (l : Int) ++ pySliceFrom t ((g : Int) + 1)).length < t.length := by
  constructor
  · intro t
    obtain ⟨r, hr⟩ := stripTags_some_of_fuel (t.length + 1) t (by omega)
    rw [hr]
    rfl
  · intro t l g hl hg
    exact strip_remainder_length hl hg

/-- Witness for C10 at the concrete input `a<b>c`. -/
theorem C10_witness :
    (stripTagsFuel 6 "a<b>c".data).isSome = true ∧
    (pySliceTo "a<b>c".data ((1 : Nat) : Int) ++
      pySliceFrom "a<b>c".data (((3 : Nat) : Int) + 1)).length < "a<b>c".data.length :=
  ⟨C10_clean_loop_terminates.1 "a<b>c".data,
   C10_clean_loop_terminates.2 "a<b>c".data 1 3 rfl rfl⟩

/-- C4: when the text has a first `<` at index `l` and the next `>` anywhere
later is at index `g`, `clean_html` removes everything from `l` to `g`
inclusive (so a bare `<` that is not part of a tag corrupts the text up to
the next unrelated `>`); when either marker is missing the loop stops and
leaves the unterminated fragment as-is; in particular `3 < 5`, which has no
later `>`, is left unchanged. -/
theorem C4_bare_lt_corruption :
    (∀ (t : Str) (l g : Nat), pyFind t "<".data 0 = (l : Int) →
        pyFind t ">".data ((l : Nat) : Int) = (g : Int) →
        clean_html t = clean_html (pySliceTo t (l : Int) ++ pySliceFrom t ((g : Int) + 1))) ∧
    (∀ t : Str,
        ('<' ∉ t ∨ '>' ∉ t ∨ pyFind t ">".data (pyFind t "<".data 0) = -1) →
        clean_html t = pyStrip (replaceChar '\r' ' ' (replaceChar '\n' ' ' t))) ∧
    clean_html "3 < 5".data = "3 < 5".data := by
  refine ⟨fun t l g hl hg => ?_, fun t hcase => ?_, rfl⟩
  · have hmlt : '<' ∈ t := List.drop_subset _ _ (mem_of_isPrefixOf_single (pyFind_eq_coe hl).1)
    have hmgt : '>' ∈ t := List.drop_subset _ _ (mem_of_isPrefixOf_single (pyFind_eq_coe hg).1)
    have hlen := strip_remainder_length hl hg
    obtain ⟨r, hr⟩ :=
      stripTags_some_of_fuel ((pySliceTo t (l : Int) ++ pySliceFrom t ((g : Int) + 1)).length + 1)
        (pySliceTo t (l : Int) ++ pySliceFrom t ((g : Int) + 1)) (by omega)
    have h1 : stripTagsFuel t.length (pySliceTo t (l : Int) ++ pySliceFrom t ((g : Int) + 1)) =
        some r := stripTags_mono _ _ _ _ hr (by omega)
    have hb : ¬(pyFind t "<".data 0 = -1 ∨ pyFind t ">".data (pyFind t "<".data 0) = -1) := by
      rw [hl, hg]
      push_neg
      constructor <;> omega
    have h2 : stripTagsFuel (t.length + 1) t = some r := by
      rw [stripTagsFuel_succ, if_pos ⟨hmlt, hmgt⟩, if_neg hb, hl, hg]
      exact h1
    simp only [clean_html, h2, hr, Option.getD_some]
  · rw [clean_html]
    by_cases hc : '<' ∈ t ∧ '>' ∈ t
    · rcases hcase with h | h | h
      · exact absurd hc.1 h
      · exact absurd hc.2 h
      · rw [stripTagsFuel_succ, if_pos hc, if_pos (Or.inr h), Option.getD_some]
    · rw [stripTagsFuel_succ, if_neg hc, Option.getD_some]

/-- Witness for C4 at the concrete input `ab<i>cd` (first `<` at 2, next `>`
at 4, removal yields `abcd`) and rendering the hypotheses concrete. -/
theorem C4_witness :
    pyFind "ab<i>cd".data "<".data 0 = ((2 : Nat) : Int) ∧
    pyFind "ab<i>cd".data ">".data ((2 : Nat) : Int) = ((4 : Nat) : Int) ∧
    clean_html "ab<i>cd".data =
      clean_html (pySliceTo "ab<i>cd".data ((2 : Nat) : Int) ++
        pySliceFrom "ab<i>cd".data (((4 : Nat) : Int) + 1)) :=
  ⟨rfl, rfl, C4_bare_lt_corruption.1 "ab<i>cd".data 2 4 rfl rfl⟩

theorem cellLoop_badRow_step (f : Nat) (acc : List Str) :
    cellLoop badRow (f + 1) 4 acc = cellLoop badRow f 4 ([] :: acc) := rfl

theorem cellLoop_badRow_stuck : ∀ (f : Nat) (acc : List Str), cellLoop badRow f 4 acc = none := by
  intro f
  induction f with
  | zero => intro acc; rfl
  | succ f ih =>
    intro acc
    rw [cellLoop_badRow_step]
    exact ih _

/-- C9 (refuted): the cell-scanning loop of `parse_table` does NOT terminate
on every row: on the row `<tr><td>x` (a `<td` with no `>` close of its own
row and no `</td>`), the scan position returns to 4 every iteration, so the
loop runs forever no matter how much fuel it gets, and `parse_table` on the
table `<table><tr><td>x</tr></table>` never finishes. -/
theorem C9_cell_scan_diverges :
    (∀ (fuel : Nat) (acc : List Str), cellLoop badRow fuel 0 acc = none) ∧
    parse_table badTable = none := by
  constructor
  · intro fuel acc
    cases fuel with
    | zero => rfl
    | succ f =>
      have hstep : cellLoop badRow (f + 1) 0 acc = cellLoop badRow f 4 ([] :: acc) := rfl
      rw [hstep]
      exact cellLoop_badRow_stuck f _
  · rfl

/-- C7: `main` exits with status 1 (and a printed message) when the argument
count is wrong, when the source is neither a URL nor an existing file, and
when zero `<table>` elements are found; in the zero-tables case no CSV file
is written (the `exitNoTables` outcome carries no files). -/
theorem C7_error_exits :
    (∀ (argc : Nat) (src : Option Str), argc ≠ 2 →
        main_model argc src = some MainOutcome.exitUsage) ∧
    main_model 2 none = some MainOutcome.exitSourceNotFound ∧
    ∀ html : Str, extract_tables html = [] →
      main_model 2 (some html) = some MainOutcome.exitNoTables := by
  refine ⟨fun argc src h => ?_, rfl, fun html h => ?_⟩
  · simp [main_model, h]
  · simp [main_model, h]

/-- Witness for C7: wrong argument count (argc 1) and a document with no
tables. -/
theorem C7_witness :
    ((1 : Nat) ≠ 2 ∧ main_model 1 none = some MainOutcome.exitUsage) ∧
    (extract_tables "no tables here".data = [] ∧
      main_model 2 (some "no tables here".data) = some MainOutcome.exitNoTables) :=
  ⟨⟨by decide, C7_error_exits.1 1 none (by decide)⟩,
   ⟨rfl, C7_error_exits.2.2 "no tables here".data rfl⟩⟩

/-- C8: when the row scan finds a `<tr` with no subsequent `</tr>`, it stops
there and returns the rows accumulated so far; concretely, a table whose
second `<tr>` is unclosed parses to just its first row, which is written to
the CSV file. -/
theorem C8_unclosed_tr_row :
    (∀ (frag : Str) (fuel : Nat) (pos : Int) (acc : List (List Str)) (rs : Int),
        pyFind frag "<tr".data pos = rs → rs ≠ -1 → pyFind frag "</tr>".data rs = -1 →
        rowLoop frag (fuel + 1) pos acc = some acc.reverse) ∧
    parse_table "<table><tr><td>a</td></tr><tr><td>b</td></table>".data = some [["a".data]] ∧
    main_model 2 (some "<table><tr><td>a</td></tr><tr><td>b</td></table>".data) =
      some (MainOutcome.finished [(output_filename 1, "\"a\"\n".data)]) := by
  refine ⟨fun frag fuel pos acc rs h1 h2 h3 => ?_, rfl, rfl⟩
  rw [rowLoop_succ, h1, if_neg h2, h3, if_pos rfl]

/-- Witness for C8's general clause at a concrete fragment with an unclosed
`<tr`. -/
theorem C8_witness :
    pyFind "<table><tr>x".data "<tr".data 0 = 7 ∧ (7 : Int) ≠ -1 ∧
    pyFind "<table><tr>x".data "</tr>".data 7 = -1 ∧
    rowLoop "<table><tr>x".data 1 0 [] = some [] :=
  ⟨rfl, by decide, rfl, C8_unclosed_tr_row.1 "<table><tr>x".data 0 0 [] 7 rfl (by decide) rfl⟩

/-! ## Occurrence-shifting engine -/

theorem clash_not_isPrefixOf : ∀ (pat a t : Str), clash pat a = true →
    pat.isPrefixOf (a ++ t) = false := by
  intro pat
  induction pat with
  | nil => intro a t h; cases a <;> simp [clash] at h
  | cons p ps ih =>
    intro a t h
    cases a with
    | nil => simp [clash] at h
    | cons x xs =>
      rw [clash] at h
      simp only [Bool.or_eq_true, bne_iff_ne] at h
      rw [List.cons_append, List.isPrefixOf]
      rcases h with h | h
      · simp [beq_eq_false_iff_ne.2 h]
      · simp [ih xs t h]

theorem foa_cons_not {pat : Str} {c : Char} {s : Str} (h : pat.isPrefixOf (c :: s) = false) :
    firstOccurAux pat (c :: s) = (firstOccurAux pat s).map (· + 1) := by
  rw [firstOccurAux.eq_def, if_neg (by simp [h])]

theorem foa_of_isPrefixOf {pat s : Str} (h : pat.isPrefixOf s = true) :
    firstOccurAux pat s = some 0 := by
  rw [firstOccurAux.eq_def, if_pos h]

theorem foa_cons_nil (h₀ : Char) (p' : Str) : firstOccurAux (h₀ :: p') [] = none := rfl

theorem foa_append_kills : ∀ (a pat t : Str),
    (∀ i, i < a.length → clash pat (a.drop i) = true) →
    firstOccurAux pat (a ++ t) = (firstOccurAux pat t).map (· + a.length) := by
  intro a
  induction a with
  | nil =>
    intro pat t h
    simp only [List.nil_append, List.length_nil]
    cases firstOccurAux pat t <;> simp
  | cons x a' ih =>
    intro pat t h
    have h0 : clash pat (x :: a') = true := by simpa using h 0 (by simp)
    have hpre : pat.isPrefixOf (x :: (a' ++ t)) = false := by
      have := clash_not_isPrefixOf pat (x :: a') t h0
      simpa using this
    rw [List.cons_append, foa_cons_not hpre,
      ih pat t (fun i hi => by simpa using h (i + 1) (by simpa using hi))]
    cases firstOccurAux pat t with
    | none => simp
    | some k => simp [List.length_cons]; omega

theorem clash_head_notMem {h₀ : Char} {p' a : Str} (ha : h₀ ∉ a) :
    ∀ i, i < a.length → clash (h₀ :: p') (a.drop i) = true := by
  intro i hi
  cases hd : a.drop i with
  | nil =>
    have := congrArg List.length hd
    simp only [List.length_drop, List.length_nil] at this
    omega
  | cons x xs =>
    have hx : x ∈ a := by
      have h1 : x ∈ a.drop i := by rw [hd]; simp
      exact List.drop_subset _ _ h1
    rw [clash]
    simp only [Bool.or_eq_true, bne_iff_ne]
    left
    intro he
    exact ha (he ▸ hx)

theorem foa_append_notMem {h₀ : Char} {p' : Str} (a t : Str) (ha : h₀ ∉ a) :
    firstOccurAux (h₀ :: p') (a ++ t) =
      (firstOccurAux (h₀ :: p') t).map (· + a.length) :=
  foa_append_kills a _ t (clash_head_notMem ha)

theorem foa_none_of_notMem {h₀ : Char} {p' : Str} (s : Str) (ha : h₀ ∉ s) :
    firstOccurAux (h₀ :: p') s = none := by
  have h := @foa_append_notMem h₀ p' s [] ha
  rwa [List.append_nil, foa_cons_nil, Option.map_none'] at h

/-! ## `pyFind`/`pySlice` bridges at natural-number positions -/

theorem drop_pyIdx_coe (s : Str) (p : Nat) : s.drop (pyIdx s.length (p : Int)) = s.drop p := by
  rw [pyIdx_coe]
  rcases le_or_lt p s.length with h | h
  · rw [Nat.min_eq_left h]
  · rw [Nat.min_eq_right (by omega), List.drop_length, List.drop_eq_nil_of_le (by omega)]

theorem pyFind_drop_some {s pat : Str} {p k : Nat} (hp : p ≤ s.length)
    (h : firstOccurAux pat (s.drop p) = some k) :
    pyFind s pat ((p : Nat) : Int) = ((k + p : Nat) : Int) := by
  simp only [pyFind, pyIdx_coe, Nat.min_eq_left hp, h]

theorem pyFind_drop_none {s pat : Str} {p : Nat}
    (h : firstOccurAux pat (s.drop p) = none) : pyFind s pat ((p : Nat) : Int) = -1 := by
  simp only [pyFind, drop_pyIdx_coe, h]

theorem pyFind_zero_some {s pat : Str} {k : Nat} (h : firstOccurAux pat s = some k) :
    pyFind s pat 0 = (k : Int) := by
  simp only [pyFind, pyIdx_zero, List.drop_zero, h, Nat.add_zero]

theorem pyFind_zero_none {s pat : Str} (h : firstOccurAux pat s = none) :
    pyFind s pat 0 = -1 := by
  simp only [pyFind, pyIdx_zero, List.drop_zero, h]

theorem pySlice_nat {s : Str} {a b : Nat} (ha : a ≤ s.length) (hb : b ≤ s.length) :
    pySlice s ((a : Nat) : Int) ((b : Nat) : Int) = (s.drop a).take (b - a) := by
  rw [pySlice, pyIdx_coe, pyIdx_coe, Nat.min_eq_left ha, Nat.min_eq_left hb, List.drop_take]

theorem take_append_len (a b : Str) (m : Nat) : (a ++ b).take (a.length + m) = a ++ b.take m := by
  induction a with
  | nil => simp
  | cons x a' ih => simp [List.take_succ_cons, ih, Nat.succ_add]

theorem isPrefixOf_take : ∀ (pat s : Str) (m : Nat), pat.isPrefixOf s = true →
    pat.length ≤ m → pat.isPrefixOf (s.take m) = true := by
  intro pat
  induction pat with
  | nil => intro s m _ _; simp [List.isPrefixOf]
  | cons p ps ih =>
    intro s m h hm
    cases s with
    | nil => simp [List.isPrefixOf] at h
    | cons b bs =>
      cases m with
      | zero => simp at hm
      | succ m' =>
        simp only [List.isPrefixOf, Bool.and_eq_true] at h
        rw [List.take_succ_cons, List.isPrefixOf, Bool.and_eq_true]
        exact ⟨h.1, ih bs m' h.2 (by simpa using hm)⟩

theorem isPrefixOf_exists : ∀ (pat s : Str), pat.isPrefixOf s = true → ∃ u, s = pat ++ u := by
  intro pat
  induction pat with
  | nil => intro s _; exact ⟨s, rfl⟩
  | cons p ps ih =>
    intro s h
    cases s with
    | nil => simp [List.isPrefixOf] at h
    | cons b bs =>
      simp only [List.isPrefixOf, Bool.and_eq_true, beq_iff_eq] at h
      obtain ⟨u, hu⟩ := ih bs h.2
      exact ⟨u, by rw [List.cons_append, ← hu, h.1]⟩

/-! ## Lengths of rendered pieces -/

theorem len_td : ("<td>".data).length = 4 := rfl

theorem len_ctd : ("</td>".data).length = 5 := rfl

theorem len_trtag : ("<tr>".data).length = 4 := rfl

theorem len_ctr : ("</tr>".data).length = 5 := rfl

theorem len_tab : ("<table>".data).length = 7 := rfl

theorem len_ctab : ("</table>".data).length = 8 := rfl

theorem cellsJoin_cons (c : Str) (cs : List Str) :
    cellsJoin (c :: cs) = "<td>".data ++ (c ++ ("</td>".data ++ cellsJoin cs)) := by
  simp [cellsJoin, renderCell]

theorem rowsJoin_cons (r : List Str) (g : List (List Str)) :
    rowsJoin (r :: g) = "<tr>".data ++ (cellsJoin r ++ ("</tr>".data ++ rowsJoin g)) := by
  simp [rowsJoin, renderRow]

theorem length_cellsJoin_cons (c : Str) (cs : List Str) :
    (cellsJoin (c :: cs)).length = c.length + 9 + (cellsJoin cs).length := by
  simp [cellsJoin_cons, List.length_append, len_td, len_ctd]
  omega

theorem length_rowsJoin_cons (r : List Str) (g : List (List Str)) :
    (rowsJoin (r :: g)).length = (cellsJoin r).length + 9 + (rowsJoin g).length := by
  simp [rowsJoin_cons, List.length_append, len_trtag, len_ctr]
  omega

theorem cells_length_le (cs : List Str) : cs.length ≤ (cellsJoin cs).length := by
  induction cs with
  | nil => simp [cellsJoin]
  | cons c cs' ih =>
    rw [length_cellsJoin_cons]
    simp only [List.length_cons]
    omega

theorem rows_length_le (g : List (List Str)) : g.length ≤ (rowsJoin g).length := by
  induction g with
  | nil => simp [rowsJoin]
  | cons r g' ih =>
    rw [length_rowsJoin_cons]
    simp only [List.length_cons]
    omega

theorem length_renderTable (g : List (List Str)) :
    (renderTable g).length = (rowsJoin g).length + 15 := by
  simp [renderTable, List.length_append, len_tab, len_ctab]

/-! ## Occurrence shifting through rendered cells and rows -/

theorem foa_cellsJoin (p' : Str) (cs : List Str) (hcs : ∀ c ∈ cs, CellOk c)
    (htd : ∀ i, i < 4 → clash ('<' :: p') ("<td>".data.drop i) = true)
    (hctd : ∀ i, i < 5 → clash ('<' :: p') ("</td>".data.drop i) = true)
    (t : Str) :
    firstOccurAux ('<' :: p') (cellsJoin cs ++ t) =
      (firstOccurAux ('<' :: p') t).map (· + (cellsJoin cs).length) := by
  induction cs with
  | nil =>
    simp only [cellsJoin, List.map_nil, List.flatten_nil, List.nil_append, List.length_nil]
    cases firstOccurAux ('<' :: p') t <;> simp
  | cons c cs' ih =>
    have hc := hcs c (by simp)
    rw [cellsJoin_cons]
    simp only [List.append_assoc]
    rw [foa_append_kills "<td>".data _ _ htd,
      foa_append_notMem c _ hc.1,
      foa_append_kills "</td>".data _ _ hctd,
      ih (fun x hx => hcs x (by simp [hx]))]
    cases firstOccurAux ('<' :: p') t with
    | none => simp
    | some k =>
      simp only [Option.map_some', Option.some.injEq, List.length_append, List.length_cons,
        List.length_nil]
      omega

theorem foa_rowsJoin (p' : Str) (g : List (List Str)) (hg : GridOk g)
    (htd : ∀ i, i < 4 → clash ('<' :: p') ("<td>".data.drop i) = true)
    (hctd : ∀ i, i < 5 → clash ('<' :: p') ("</td>".data.drop i) = true)
    (htr : ∀ i, i < 4 → clash ('<' :: p') ("<tr>".data.drop i) = true)
    (hctr : ∀ i, i < 5 → clash ('<' :: p') ("</tr>".data.drop i) = true)
    (t : Str) :
    firstOccurAux ('<' :: p') (rowsJoin g ++ t) =
      (firstOccurAux ('<' :: p') t).map (· + (rowsJoin g).length) := by
  induction g with
  | nil =>
    simp only [rowsJoin, List.map_nil, List.flatten_nil, List.nil_append, List.length_nil]
    cases firstOccurAux ('<' :: p') t <;> simp
  | cons r g' ih =>
    rw [rowsJoin_cons]
    simp only [List.append_assoc]
    rw [foa_append_kills "<tr>".data _ _ htr,
      foa_cellsJoin p' r (fun c hc => hg r (by simp) c hc) htd hctd,
      foa_append_kills "</tr>".data _ _ hctr,
      ih (fun x hx => hg x (by simp [hx]))]
    cases firstOccurAux ('<' :: p') t with
    | none => simp
    | some k =>
      simp only [Option.map_some', Option.some.injEq, List.length_append, List.length_cons,
        List.length_nil]
      omega

/-! ## Counting `<tr>` occurrences in a rendered document -/

theorem count_cons_of_not {pat : Str} {c : Char} {s : Str}
    (h : pat.isPrefixOf (c :: s) = false) : countOccur pat (c :: s) = countOccur pat s := by
  rw [countOccur]
  simp [h]

theorem count_append_kills : ∀ (a pat t : Str),
    (∀ i, i < a.length → clash pat (a.drop i) = true) →
    countOccur pat (a ++ t) = countOccur pat t := by
  intro a
  induction a with
  | nil => intro pat t _; simp
  | cons x a' ih =>
    intro pat t h
    have h0 : clash pat (x :: a') = true := by simpa using h 0 (by simp)
    have hpre : pat.isPrefixOf (x :: (a' ++ t)) = false := by
      have := clash_not_isPrefixOf pat (x :: a') t h0
      simpa using this
    rw [List.cons_append, count_cons_of_not hpre]
    exact ih pat t (fun i hi => by simpa using h (i + 1) (by simpa using hi))

theorem count_append_notMem {h₀ : Char} {p' : Str} (a t : Str) (ha : h₀ ∉ a) :
    countOccur (h₀ :: p') (a ++ t) = countOccur (h₀ :: p') t :=
  count_append_kills a _ t (clash_head_notMem ha)

theorem count_tr_hit (X : Str) :
    countOccur "<tr>".data ("<tr>".data ++ X) =
      1 + countOccur "<tr>".data ("tr>".data ++ X) := by
  rw [show "<tr>".data ++ X = '<' :: ("tr>".data ++ X) from rfl, countOccur]
  simp [show ("<tr>".data.isPrefixOf ('<' :: ("tr>".data ++ X))) = true from by
    simp [List.isPrefixOf]]

theorem count_tr_cellsJoin (cs : List Str) (hcs : ∀ c ∈ cs, CellOk c) (t : Str) :
    countOccur "<tr>".data (cellsJoin cs ++ t) = countOccur "<tr>".data t := by
  induction cs with
  | nil => simp [cellsJoin]
  | cons c cs' ih =>
    have hc := hcs c (by simp)
    rw [cellsJoin_cons]
    simp only [List.append_assoc]
    rw [count_append_kills "<td>".data _ _ (by decide),
      count_append_notMem c _ hc.1,
      count_append_kills "</td>".data _ _ (by decide)]
    exact ih (fun x hx => hcs x (by simp [hx]))

theorem count_tr_rowsJoin (g : List (List Str)) (hg : GridOk g) (t : Str) :
    countOccur "<tr>".data (rowsJoin g ++ t) = g.length + countOccur "<tr>".data t := by
  induction g with
  | nil => simp [rowsJoin]
  | cons r g' ih =>
    rw [rowsJoin_cons]
    simp only [List.append_assoc]
    rw [count_tr_hit,
      count_append_kills "tr>".data _ _ (by decide),
      count_tr_cellsJoin r (fun c hc => hg r (by simp) c hc),
      count_append_kills "</tr>".data _ _ (by decide),
      ih (fun x hx => hg x (by simp [hx]))]
    simp only [List.length_cons]
    omega

theorem count_tr_doc (g : List (List Str)) (pre post : Str) (hg : GridOk g)
    (hpre : '<' ∉ pre) (hpost : '<' ∉ post) :
    countOccur "<tr>".data (pre ++ (renderTable g ++ post)) = g.length := by
  rw [count_append_notMem pre _ hpre,
    show renderTable g ++ post =
      "<table>".data ++ (rowsJoin g ++ ("</table>".data ++ post)) from by
        simp [renderTable, List.append_assoc],
    count_append_kills "<table>".data _ _ (by decide),
    count_tr_rowsJoin g hg,
    count_append_kills "</table>".data _ _ (by decide)]
  have hp : countOccur "<tr>".data post = 0 := by
    have h := @count_append_notMem '<' "tr>".data post [] hpost
    simpa using h
  omega

/-! ## `extract_tables` on a well-formed document -/

theorem extractLoop_stop (html : Str) (fuel : Nat) (pos : Int) (acc : List Str)
    (h : pyFind html "<table".data pos = -1) : extractLoop html fuel pos acc = acc.reverse := by
  cases fuel with
  | zero => rfl
  | succ f => rw [extractLoop_succ, if_pos h]

theorem extract_tables_render (g : List (List Str)) (pre post : Str) (hg : GridOk g)
    (hpre : '<' ∉ pre) (hpost : '<' ∉ post) :
    extract_tables (pre ++ (renderTable g ++ post)) = [renderTable g] := by
  have hlen : (pre ++ (renderTable g ++ post)).length =
      pre.length + ((rowsJoin g).length + 15) + post.length := by
    simp only [List.length_append, length_renderTable]
    omega
  have h1 : firstOccurAux "<table".data (pre ++ (renderTable g ++ post)) =
      some pre.length := by
    rw [foa_append_notMem pre _ hpre,
      foa_of_isPrefixOf (show "<table".data.isPrefixOf (renderTable g ++ post) = true from by
        simp [renderTable, List.isPrefixOf])]
    simp
  have hfind1 : pyFind (pre ++ (renderTable g ++ post)) "<table".data 0 =
      ((pre.length : Nat) : Int) := pyFind_zero_some h1
  have hfoa2 : firstOccurAux "</table>".data
      ((pre ++ (renderTable g ++ post)).drop pre.length) =
      some (7 + (rowsJoin g).length) := by
    rw [List.drop_left,
      show renderTable g ++ post =
        "<table>".data ++ (rowsJoin g ++ ("</table>".data ++ post)) from by
          simp [renderTable],
      foa_append_kills "<table>".data _ _ (by decide),
      foa_rowsJoin "/table>".data g hg (by decide) (by decide) (by decide) (by decide),
      foa_of_isPrefixOf (show "</table>".data.isPrefixOf ("</table>".data ++ post) = true from by
        simp [List.isPrefixOf])]
    simp [len_tab]
    omega
  have hfind2 : pyFind (pre ++ (renderTable g ++ post)) "</table>".data
      ((pre.length : Nat) : Int) =
      ((7 + (rowsJoin g).length + pre.length : Nat) : Int) :=
    pyFind_drop_some (by omega) hfoa2
  have hconv : ((7 + (rowsJoin g).length + pre.length : Nat) : Int) + 8 =
      ((7 + (rowsJoin g).length + pre.length + 8 : Nat) : Int) := by
    push_cast
    omega
  have hslice : pySlice (pre ++ (renderTable g ++ post)) ((pre.length : Nat) : Int)
      ((7 + (rowsJoin g).length + pre.length + 8 : Nat) : Int) = renderTable g := by
    rw [pySlice_nat (by omega) (by omega), List.drop_left]
    rw [show 7 + (rowsJoin g).length + pre.length + 8 - pre.length =
      (renderTable g).length from by rw [length_renderTable]; omega]
    exact List.take_left _ _
  have hfind3 : pyFind (pre ++ (renderTable g ++ post)) "<table".data
      ((7 + (rowsJoin g).length + pre.length + 8 : Nat) : Int) = -1 := by
    apply pyFind_drop_none
    rw [show pre ++ (renderTable g ++ post) = (pre ++ renderTable g) ++ post from by
        simp [List.append_assoc],
      show 7 + (rowsJoin g).length + pre.length + 8 = (pre ++ renderTable g).length from by
        simp [List.length_append, length_renderTable]; omega,
      List.drop_left]
    exact foa_none_of_notMem post hpost
  rw [extract_tables, extractLoop_succ, hfind1, if_neg (by omega), hfind2, if_neg (by omega),
    hconv, hslice, extractLoop_stop _ _ _ _ hfind3]
  rfl

/-! ## `parse_table` on a rendered table -/

/-- The cell loop, run on a row whose remaining suffix is a junk block
(containing no cell marker) followed by rendered cells, finds exactly those
cells and terminates. -/
theorem cellLoop_render :
    ∀ (cs : List Str) (fuel : Nat) (row junk : Str) (p : Nat) (acc : List Str),
      (∀ c ∈ cs, CellOk c) →
      (∀ i, i < junk.length → clash "<td".data (junk.drop i) = true) →
      (∀ i, i < junk.length → clash "<th".data (junk.drop i) = true) →
      row.drop p = junk ++ cellsJoin cs →
      cs.length < fuel →
      ∃ out, cellLoop row fuel ((p : Nat) : Int) acc = some out ∧
        out.length = cs.length + acc.length := by
  intro cs
  induction cs with
  | nil =>
    intro fuel row junk p acc _ hjtd hjth hsuf hfuel
    obtain ⟨f, rfl⟩ : ∃ f, fuel = f + 1 := ⟨fuel - 1, by omega⟩
    have hsuf' : row.drop p = junk ++ [] := by simpa [cellsJoin] using hsuf
    have htd_none : firstOccurAux "<td".data (row.drop p) = none := by
      rw [hsuf', foa_append_kills junk _ _ hjtd]
      simp [show firstOccurAux "<td".data ([] : Str) = none from rfl]
    have hth_none : firstOccurAux "<th".data (row.drop p) = none := by
      rw [hsuf', foa_append_kills junk _ _ hjth]
      simp [show firstOccurAux "<th".data ([] : Str) = none from rfl]
    refine ⟨acc.reverse, ?_, by simp⟩
    rw [cellLoop_succ, if_pos ⟨pyFind_drop_none htd_none, pyFind_drop_none hth_none⟩]
  | cons c cs' ih =>
    intro fuel row junk p acc hcs hjtd hjth hsuf hfuel
    obtain ⟨f, rfl⟩ : ∃ f, fuel = f + 1 := ⟨fuel - 1, by omega⟩
    have hc : CellOk c := hcs c (by simp)
    have hsuf1 : row.drop p =
        junk ++ ("<td>".data ++ (c ++ ("</td>".data ++ cellsJoin cs'))) := by
      rw [hsuf, cellsJoin_cons]
    have hlen1 := congrArg List.length hsuf1
    simp only [List.length_drop, List.length_append, List.length_cons, List.length_nil] at hlen1
    have hp_le : p ≤ row.length := by omega
    have htd_occ : firstOccurAux "<td".data (row.drop p) = some junk.length := by
      rw [hsuf1, foa_append_kills junk _ _ hjtd,
        foa_of_isPrefixOf
          (show "<td".data.isPrefixOf
              ("<td>".data ++ (c ++ ("</td>".data ++ cellsJoin cs'))) = true from by
            simp [List.isPrefixOf])]
      simp
    have hfind_td : pyFind row "<td".data ((p : Nat) : Int) = ((junk.length + p : Nat) : Int) :=
      pyFind_drop_some hp_le htd_occ
    have hth_none : firstOccurAux "<th".data (row.drop p) = none := by
      rw [hsuf, foa_append_kills junk _ _ hjth,
        show cellsJoin (c :: cs') = cellsJoin (c :: cs') ++ [] from by simp,
        foa_cellsJoin "th".data (c :: cs') hcs (by decide) (by decide)]
      simp [show firstOccurAux "<th".data ([] : Str) = none from rfl]
    have hfind_th : pyFind row "<th".data ((p : Nat) : Int) = -1 := pyFind_drop_none hth_none
    have hq_le : junk.length + p ≤ row.length := by omega
    have hdropq : row.drop (junk.length + p) =
        "<td>".data ++ (c ++ ("</td>".data ++ cellsJoin cs')) := by
      rw [show row.drop (junk.length + p) = (row.drop p).drop junk.length from by
          rw [List.drop_drop]; congr 1; omega,
        hsuf1, List.drop_left]
    have hgt_occ : firstOccurAux ">".data (row.drop (junk.length + p)) = some 3 := by
      rw [hdropq,
        show "<td>".data ++ (c ++ ("</td>".data ++ cellsJoin cs')) =
          "<td".data ++ ('>' :: (c ++ ("</td>".data ++ cellsJoin cs'))) from by simp,
        foa_append_kills "<td".data _ _ (by decide),
        foa_of_isPrefixOf
          (show ">".data.isPrefixOf ('>' :: (c ++ ("</td>".data ++ cellsJoin cs'))) = true from by
            simp [List.isPrefixOf])]
      simp [show ("<td".data).length = 3 from rfl]
    have hfind_gt : pyFind row ">".data ((junk.length + p : Nat) : Int) =
        ((3 + (junk.length + p) : Nat) : Int) := pyFind_drop_some hq_le hgt_occ
    have hconv1 : ((3 + (junk.length + p) : Nat) : Int) + 1 =
        ((4 + junk.length + p : Nat) : Int) := by push_cast; omega
    have hr_le : 4 + junk.length + p ≤ row.length := by omega
    have hdropr : row.drop (4 + junk.length + p) = c ++ ("</td>".data ++ cellsJoin cs') := by
      rw [show row.drop (4 + junk.length + p) = (row.drop (junk.length + p)).drop 4 from by
          rw [List.drop_drop]; congr 1; omega,
        hdropq,
        show (4 : Nat) = ("<td>".data).length from rfl,
        List.drop_left]
    have hctd_occ : firstOccurAux "</td>".data (row.drop (4 + junk.length + p)) =
        some c.length := by
      rw [hdropr, foa_append_notMem c _ hc.1,
        foa_of_isPrefixOf
          (show "</td>".data.isPrefixOf ("</td>".data ++ cellsJoin cs') = true from by
            simp [List.isPrefixOf])]
      simp
    have hfind_ctd : pyFind row "</td>".data ((4 + junk.length + p : Nat) : Int) =
        ((c.length + (4 + junk.length + p) : Nat) : Int) := pyFind_drop_some hr_le hctd_occ
    have hconv2 : ((c.length + (4 + junk.length + p) : Nat) : Int) + 5 =
        ((c.length + 9 + junk.length + p : Nat) : Int) := by push_cast; omega
    have hdropnext : row.drop (c.length + 9 + junk.length + p) = [] ++ cellsJoin cs' := by
      rw [show row.drop (c.length + 9 + junk.length + p) =
          (row.drop (4 + junk.length + p)).drop (c.length + 5) from by
          rw [List.drop_drop]; congr 1; omega,
        hdropr,
        show c ++ ("</td>".data ++ cellsJoin cs') = (c ++ "</td>".data) ++ cellsJoin cs' from by
          simp [List.append_assoc],
        show c.length + 5 = (c ++ "</td>".data).length from by
          simp [List.length_append, len_ctd],
        List.drop_left]
      simp
    rw [cellLoop_succ, hfind_td, hfind_th,
      if_neg (fun hand => absurd hand.1 (by omega)),
      if_pos ⟨by omega, Or.inr rfl⟩,
      hfind_gt, hconv1, hfind_ctd, hconv2]
    obtain ⟨out, hout, houtlen⟩ := ih f row [] (c.length + 9 + junk.length + p)
      (clean_html (pyStrip (pySlice row ((4 + junk.length + p : Nat) : Int)
        ((c.length + (4 + junk.length + p) : Nat) : Int))) :: acc)
      (fun x hx => hcs x (by simp [hx]))
      (fun i hi => by simp at hi) (fun i hi => by simp at hi)
      hdropnext (by simp at hfuel ⊢; omega)
    refine ⟨out, hout, ?_⟩
    simp only [List.length_cons] at houtlen ⊢
    omega

/-- The row loop, run on a fragment whose remaining suffix is a junk block
(containing no `<tr`) followed by the rendered rows and the closing tag,
parses exactly those rows and terminates. -/
theorem rowLoop_render :
    ∀ (rs : List (List Str)) (fuel : Nat) (frag junk : Str) (p : Nat)
      (acc : List (List Str)),
      (∀ r ∈ rs, ∀ c ∈ r, CellOk c) →
      (∀ i, i < junk.length → clash "<tr".data (junk.drop i) = true) →
      frag.drop p = junk ++ (rowsJoin rs ++ "</table>".data) →
      rs.length < fuel →
      ∃ rows, rowLoop frag fuel ((p : Nat) : Int) acc = some rows ∧
        rows.length = rs.length + acc.length := by
  intro rs
  induction rs with
  | nil =>
    intro fuel frag junk p acc _ hjtr hsuf hfuel
    obtain ⟨f, rfl⟩ : ∃ f, fuel = f + 1 := ⟨fuel - 1, by omega⟩
    have hsuf' : frag.drop p = junk ++ ("</table>".data ++ []) := by
      simpa [rowsJoin] using hsuf
    have htr_none : firstOccurAux "<tr".data (frag.drop p) = none := by
      rw [hsuf', foa_append_kills junk _ _ hjtr,
        foa_append_kills "</table>".data _ _ (by decide)]
      simp [show firstOccurAux "<tr".data ([] : Str) = none from rfl]
    refine ⟨acc.reverse, ?_, by simp⟩
    rw [rowLoop_succ, if_pos (pyFind_drop_none htr_none)]
  | cons r rs' ih =>
    intro fuel frag junk p acc hrs hjtr hsuf hfuel
    obtain ⟨f, rfl⟩ : ∃ f, fuel = f + 1 := ⟨fuel - 1, by omega⟩
    have hr : ∀ c ∈ r, CellOk c := hrs r (by simp)
    have hsuf1 : frag.drop p = junk ++ ("<tr>".data ++ (cellsJoin r ++
        ("</tr>".data ++ (rowsJoin rs' ++ "</table>".data)))) := by
      rw [hsuf, rowsJoin_cons]
      simp [List.append_assoc]
    have hlen1 := congrArg List.length hsuf1
    simp only [List.length_drop, List.length_append, List.length_cons, List.length_nil] at hlen1
    have hp_le : p ≤ frag.length := by omega
    have htr_occ : firstOccurAux "<tr".data (frag.drop p) = some junk.length := by
      rw [hsuf1, foa_append_kills junk _ _ hjtr,
        foa_of_isPrefixOf
          (show "<tr".data.isPrefixOf ("<tr>".data ++ (cellsJoin r ++
            ("</tr>".data ++ (rowsJoin rs' ++ "</table>".data)))) = true from by
            simp [List.isPrefixOf])]
      simp
    have hfind_tr : pyFind frag "<tr".data ((p : Nat) : Int) =
        ((junk.length + p : Nat) : Int) := pyFind_drop_some hp_le htr_occ
    have hq_le : junk.length + p ≤ frag.length := by omega
    have hdropq : frag.drop (junk.length + p) = "<tr>".data ++ (cellsJoin r ++
        ("</tr>".data ++ (rowsJoin rs' ++ "</table>".data))) := by
      rw [show frag.drop (junk.length + p) = (frag.drop p).drop junk.length from by
          rw [List.drop_drop]; congr 1; omega,
        hsuf1, List.drop_left]
    have hctr_occ : firstOccurAux "</tr>".data (frag.drop (junk.length + p)) =
        some (4 + (cellsJoin r).length) := by
      rw [hdropq, foa_append_kills "<tr>".data _ _ (by decide),
        foa_cellsJoin "/tr>".data r hr (by decide) (by decide),
        foa_of_isPrefixOf
          (show "</tr>".data.isPrefixOf ("</tr>".data ++ (rowsJoin rs' ++ "</table>".data)) =
            true from by simp [List.isPrefixOf])]
      simp only [Option.map_some', Option.some.injEq, List.length_cons, List.length_nil]
      omega
    have hfind_ctr : pyFind frag "</tr>".data ((junk.length + p : Nat) : Int) =
        ((4 + (cellsJoin r).length + (junk.length + p) : Nat) : Int) :=
      pyFind_drop_some hq_le hctr_occ
    have hb_le : 4 + (cellsJoin r).length + (junk.length + p) ≤ frag.length := by omega
    have hslice : pySlice frag ((junk.length + p : Nat) : Int)
        ((4 + (cellsJoin r).length + (junk.length + p) : Nat) : Int) =
        "<tr>".data ++ cellsJoin r := by
      rw [pySlice_nat hq_le hb_le, hdropq,
        show 4 + (cellsJoin r).length + (junk.length + p) - (junk.length + p) =
          ("<tr>".data ++ cellsJoin r).length from by
          simp only [List.length_append, List.length_cons, List.length_nil]; omega,
        show "<tr>".data ++ (cellsJoin r ++ ("</tr>".data ++ (rowsJoin rs' ++ "</table>".data))) =
          ("<tr>".data ++ cellsJoin r) ++ ("</tr>".data ++ (rowsJoin rs' ++ "</table>".data))
          from by simp [List.append_assoc]]
      exact List.take_left _ _
    obtain ⟨cells, hcells, _⟩ := cellLoop_render r (("<tr>".data ++ cellsJoin r).length + 1)
      ("<tr>".data ++ cellsJoin r) "<tr>".data 0 [] hr (by decide) (by decide) (by simp)
      (by have := cells_length_le r
          simp only [List.length_append, List.length_cons, List.length_nil]
          omega)
    have hcells0 : cellLoop ("<tr>".data ++ cellsJoin r)
        (("<tr>".data ++ cellsJoin r).length + 1) 0 [] = some cells := by
      exact_mod_cast hcells
    have hconv : ((4 + (cellsJoin r).length + (junk.length + p) : Nat) : Int) + 5 =
        ((4 + (cellsJoin r).length + (junk.length + p) + 5 : Nat) : Int) := by
      push_cast; omega
    have hdropnext : frag.drop (4 + (cellsJoin r).length + (junk.length + p) + 5) =
        [] ++ (rowsJoin rs' ++ "</table>".data) := by
      rw [show frag.drop (4 + (cellsJoin r).length + (junk.length + p) + 5) =
          (frag.drop (junk.length + p)).drop (9 + (cellsJoin r).length) from by
          rw [List.drop_drop]; congr 1; omega,
        hdropq,
        show "<tr>".data ++ (cellsJoin r ++ ("</tr>".data ++ (rowsJoin rs' ++ "</table>".data))) =
          ("<tr>".data ++ (cellsJoin r ++ "</tr>".data)) ++ (rowsJoin rs' ++ "</table>".data)
          from by simp [List.append_assoc],
        show 9 + (cellsJoin r).length = ("<tr>".data ++ (cellsJoin r ++ "</tr>".data)).length
          from by simp only [List.length_append, List.length_cons, List.length_nil]; omega,
        List.drop_left]
      simp
    rw [rowLoop_succ, hfind_tr, if_neg (by omega), hfind_ctr, if_neg (by omega), hslice,
      hcells0, hconv]
    obtain ⟨rows, hrows, hrowslen⟩ := ih f frag []
      (4 + (cellsJoin r).length + (junk.length + p) + 5) (cells :: acc)
      (fun x hx => hrs x (by simp [hx])) (fun i hi => by simp at hi)
      hdropnext (by simp at hfuel ⊢; omega)
    refine ⟨rows, hrows, ?_⟩
    simp only [List.length_cons] at hrowslen ⊢
    omega

/-- On a rendered well-formed table, `parse_table` terminates and returns one
parsed row per rendered row. -/
theorem parse_table_render (g : List (List Str)) (hg : GridOk g) :
    ∃ rows, parse_table (renderTable g) = some rows ∧ rows.length = g.length := by
  obtain ⟨rows, hrows, hlen⟩ := rowLoop_render g ((renderTable g).length + 1)
    (renderTable g) "<table>".data 0 [] hg (by decide)
    (by simp [renderTable])
    (by have := rows_length_le g
        rw [length_renderTable]
        omega)
  refine ⟨rows, ?_, by simpa using hlen⟩
  rw [parse_table]
  exact_mod_cast hrows

/-- C1 (as stated, refuted): the document `<table></table>` is a well-formed
document containing exactly one `<table>...</table>` block (one `<table>`
occurrence, and the extractor detects exactly one table), yet the pipeline
produces zero output CSV files, not one: the table has zero rows and `main`
skips empty tables. -/
theorem C1_counterexample :
    countOccur "<table>".data "<table></table>".data = 1 ∧
    extract_tables "<table></table>".data = ["<table></table>".data] ∧
    main_model 2 (some "<table></table>".data) = some (MainOutcome.finished []) :=
  ⟨rfl, rfl, rfl⟩

/-- C1 (amended): for every well-formed document containing exactly one
table block *with at least one row* — formalised as `pre ++ renderTable g ++
post` with `g` nonempty, scan-safe cells, and no `<` in the surroundings —
the pipeline produces exactly one output CSV file (`output_1.csv`), and the
number of parsed rows equals the number of `<tr>` blocks in the source
document, namely `g.length`. -/
theorem C1_one_table_pipeline (g : List (List Str)) (pre post : Str) (hg : GridOk g)
    (hne : g ≠ []) (hpre : '<' ∉ pre) (hpost : '<' ∉ post) :
    ∃ rows, main_model 2 (some (pre ++ (renderTable g ++ post))) =
        some (MainOutcome.finished [(output_filename 1, save_csv rows)]) ∧
      rows.length = countOccur "<tr>".data (pre ++ (renderTable g ++ post)) ∧
      rows.length = g.length := by
  obtain ⟨rows, hparse, hlen⟩ := parse_table_render g hg
  have hextract := extract_tables_render g pre post hg hpre hpost
  have hcount := count_tr_doc g pre post hg hpre hpost
  have hrows_ne : rows ≠ [] := by
    intro h0
    rw [h0] at hlen
    simp only [List.length_nil] at hlen
    exact hne (List.length_eq_zero.mp hlen.symm)
  refine ⟨rows, ?_, by rw [hcount, hlen], hlen⟩
  simp [main_model, hextract, filesLoop, hparse, hrows_ne]

/-- Witness for C1's amended theorem at the one-row grid `[[a]]` with empty
surroundings. -/
theorem C1_witness :
    ∃ rows, main_model 2 (some (([] : Str) ++ (renderTable [["a".data]] ++ ([] : Str)))) =
        some (MainOutcome.finished [(output_filename 1, save_csv rows)]) ∧
      rows.length =
        countOccur "<tr>".data (([] : Str) ++ (renderTable [["a".data]] ++ ([] : Str))) ∧
      rows.length = ([["a".data]] : List (List Str)).length :=
  C1_one_table_pipeline [["a".data]] [] []
    (by
      intro r hr c hc
      simp only [List.mem_singleton] at hr
      subst hr
      simp only [List.mem_singleton] at hc
      subst hc
      exact ⟨by decide, by decide⟩)
    (by simp) (by simp) (by simp)

/-! ## Shape of extracted fragments (C5) -/

theorem extractLoop_shape :
    ∀ (fuel : Nat) (html : Str) (pos : Int) (acc : List Str),
      (∀ f ∈ acc, "<table".data.isPrefixOf f = true ∧ ∃ u : Str, f = u ++ "</table>".data) →
      ∀ f ∈ extractLoop html fuel pos acc,
        "<table".data.isPrefixOf f = true ∧ ∃ u : Str, f = u ++ "</table>".data := by
  intro fuel
  induction fuel with
  | zero =>
    intro html pos acc hacc f hf
    have h0 : extractLoop html 0 pos acc = acc.reverse := rfl
    rw [h0] at hf
    exact hacc f (by simpa using hf)
  | succ fl ih =>
    intro html pos acc hacc f hf
    rw [extractLoop_succ] at hf
    by_cases h1 : pyFind html "<table".data pos = -1
    · rw [if_pos h1] at hf
      exact hacc f (by simpa using hf)
    · rw [if_neg h1] at hf
      by_cases h2 : pyFind html "</table>".data (pyFind html "<table".data pos) = -1
      · rw [if_pos h2] at hf
        exact hacc f (by simpa using hf)
      · rw [if_neg h2] at hf
        refine ih html _ _ ?_ f hf
        intro f' hf'
        rcases List.mem_cons.mp hf' with rfl | hmem
        · obtain hst | ⟨s, hs⟩ := pyFind_cases html "<table".data pos
          · exact absurd hst h1
          obtain het | ⟨e, he⟩ := pyFind_cases html "</table>".data (pyFind html "<table".data pos)
          · exact absurd het h2
          obtain ⟨hso, _⟩ := pyFind_eq_coe hs
          rw [hs] at he
          obtain ⟨heo, hele⟩ := pyFind_eq_coe he
          rw [pyIdx_coe] at hele
          have hslen : s < html.length := pyFind_coe_lt_length hs (by simp)
          have helen : e + 8 ≤ html.length := by
            have h8 := isPrefixOf_length heo
            simp only [List.length_drop, List.length_cons, List.length_nil] at h8
            omega
          have hse : s ≤ e := by omega
          rw [hs, he,
            show ((e : Nat) : Int) + 8 = ((e + 8 : Nat) : Int) from by push_cast; omega,
            pySlice_nat (by omega) (by omega)]
          constructor
          · refine isPrefixOf_take _ _ _ hso ?_
            have h6 : ("<table".data).length = 6 := rfl
            omega
          · obtain ⟨u, hu⟩ := isPrefixOf_exists _ _ heo
            refine ⟨(html.drop s).take (e - s), ?_⟩
            rw [show e + 8 - s = (e - s) + 8 from by omega, List.take_add]
            congr 1
            rw [show (html.drop s).drop (e - s) = html.drop e from by
                rw [List.drop_drop]; congr 1; omega,
              hu,
              show (8 : Nat) = ("</table>".data).length from rfl,
              List.take_left]
        · exact hacc f' hmem

/-- C5: the table extractor's fragments each span from an occurrence of
`<table` (every fragment starts with `<table`) through the end of the first
subsequent `</table>` inclusive (every fragment ends with `</table>`);
a nested table is cut at the first closing tag found; scanning stops when the
opening marker is missing, and a trailing table with an opening `<table` but
no closing `</table>` is silently dropped. -/
theorem C5_extractor_fragments :
    (∀ html : Str, ∀ f ∈ extract_tables html,
        "<table".data.isPrefixOf f = true ∧ ∃ u : Str, f = u ++ "</table>".data) ∧
    extract_tables "<table>a<table>b</table>c</table>".data =
      ["<table>a<table>b</table>".data] ∧
    extract_tables "<table>a</table>xx<table>b".data = ["<table>a</table>".data] ∧
    (∀ (html : Str) (fuel : Nat) (pos : Int) (acc : List Str),
        pyFind html "<table".data pos = -1 →
        extractLoop html fuel pos acc = acc.reverse) ∧
    (∀ (html : Str) (fuel : Nat) (pos st : Int) (acc : List Str),
        pyFind html "<table".data pos = st → st ≠ -1 →
        pyFind html "</table>".data st = -1 →
        extractLoop html (fuel + 1) pos acc = acc.reverse) := by
  refine ⟨?_, rfl, rfl, ?_, ?_⟩
  · intro html f hf
    exact extractLoop_shape _ html 0 [] (by simp) f hf
  · intro html fuel pos acc h
    exact extractLoop_stop html fuel pos acc h
  · intro html fuel pos st acc h1 h2 h3
    rw [extractLoop_succ, h1, if_neg h2, h3, if_pos rfl]

/-- Witness for C5's conditional clauses at concrete inputs. -/
theorem C5_witness :
    ("<table".data.isPrefixOf "<table>a</table>".data = true ∧
      ∃ u : Str, "<table>a</table>".data = u ++ "</table>".data) ∧
    (pyFind "x".data "<table".data 0 = -1 ∧ extractLoop "x".data 2 0 [] = []) ∧
    (pyFind "y<table>z".data "<table".data 0 = 1 ∧ (1 : Int) ≠ -1 ∧
      pyFind "y<table>z".data "</table>".data 1 = -1 ∧
      extractLoop "y<table>z".data 1 0 [] = []) :=
  ⟨C5_extractor_fragments.1 "<table>a</table>".data _ (by
      rw [show extract_tables "<table>a</table>".data = ["<table>a</table>".data] from rfl]
      simp),
   ⟨rfl, C5_extractor_fragments.2.2.2.1 "x".data 2 0 [] rfl⟩,
   ⟨rfl, by decide, rfl,
     C5_extractor_fragments.2.2.2.2 "y<table>z".data 0 0 1 [] rfl (by decide) rfl⟩⟩

/-! ## Output-file numbering (C6) -/

theorem filesLoop_char :
    ∀ (ts : List Str) (i : Nat) (fs : List (Str × Str)),
      filesLoop i ts = some fs →
      fs = (List.range ts.length).filterMap (fun k =>
        (parse_table (ts.getD k [])).bind (fun rows =>
          if rows = [] then none
          else some (output_filename (i + k), save_csv rows))) := by
  intro ts
  induction ts with
  | nil =>
    intro i fs h
    have h0 : filesLoop i [] = some [] := rfl
    rw [h0] at h
    simp only [Option.some.injEq] at h
    subst h
    simp
  | cons t ts' ih =>
    intro i fs h
    rw [filesLoop] at h
    cases hp : parse_table t with
    | none => rw [hp] at h; simp at h
    | some rows =>
      rw [hp] at h
      cases hrest : filesLoop (i + 1) ts' with
      | none => rw [hrest] at h; simp at h
      | some rest =>
        rw [hrest] at h
        simp only [Option.some.injEq] at h
        have hrec := ih (i + 1) rest hrest
        subst h
        have hfun : ((fun k => (parse_table ((t :: ts').getD k [])).bind
              (fun rows => if rows = [] then none
                else some (output_filename (i + k), save_csv rows))) ∘ Nat.succ)
            = (fun k => (parse_table (ts'.getD k [])).bind
              (fun rows => if rows = [] then none
                else some (output_filename (i + 1 + k), save_csv rows))) := by
          funext k
          simp only [Function.comp_apply, List.getD_cons_succ]
          rw [show i + (k + 1) = i + 1 + k from by omega]
        by_cases hr0 : rows = []
        · rw [if_pos hr0, List.length_cons, List.range_succ_eq_map,
            show (0 :: List.map Nat.succ (List.range ts'.length)) =
              [0] ++ List.map Nat.succ (List.range ts'.length) from rfl,
            List.filterMap_append, List.filterMap_map, hfun, ← hrec]
          simp [List.getD_cons_zero, hp, hr0]
        · rw [if_neg hr0, List.length_cons, List.range_succ_eq_map,
            show (0 :: List.map Nat.succ (List.range ts'.length)) =
              [0] ++ List.map Nat.succ (List.range ts'.length) from rfl,
            List.filterMap_append, List.filterMap_map, hfun, ← hrec]
          simp [List.getD_cons_zero, hp, hr0]

/-- C6: output files are named `output_<N>.csv` with `N` the 1-based index of
the table across all detected tables in document order; tables whose parsed
grid is empty are skipped but keep their index, leaving gaps.  Concretely:
with two tables whose second has no rows, exactly `output_1.csv` is produced;
with two tables whose *first* has no rows, exactly `output_2.csv` is produced
(no `output_1.csv` — the gap remains). -/
theorem C6_output_numbering :
    (∀ (ts : List Str) (i : Nat) (fs : List (Str × Str)),
        filesLoop i ts = some fs →
        fs = (List.range ts.length).filterMap (fun k =>
          (parse_table (ts.getD k [])).bind (fun rows =>
            if rows = [] then none
            else some (output_filename (i + k), save_csv rows)))) ∧
    main_model 2 (some "<table><tr><td>a</td></tr></table><table></table>".data) =
      some (MainOutcome.finished [(output_filename 1, "\"a\"\n".data)]) ∧
    main_model 2 (some "<table></table><table><tr><td>a</td></tr></table>".data) =
      some (MainOutcome.finished [(output_filename 2, "\"a\"\n".data)]) :=
  ⟨filesLoop_char, rfl, rfl⟩

/-- Witness for C6's characterization clause at a concrete table list. -/
theorem C6_witness :
    filesLoop 1 ["<table></table>".data] = some [] ∧
    ([] : List (Str × Str)) = (List.range 1).filterMap (fun k =>
      (parse_table (["<table></table>".data].getD k [])).bind (fun rows =>
        if rows = [] then none
        else some (output_filename (1 + k), save_csv rows))) :=
  ⟨rfl, C6_output_numbering.1 ["<table></table>".data] 1 [] rfl⟩

/-! ## Fuel adequacy for `extractLoop` -/

theorem pyFind_past_end {h₀ : Char} {p' : Str} (s : Str) (pos : Int) (hpos : 0 ≤ pos)
    (hlen : (s.length : Int) < pos) : pyFind s (h₀ :: p') pos = -1 := by
  have h1 : pyIdx s.length pos = s.length := by
    rw [pyIdx, if_neg (by omega)]
    omega
  simp only [pyFind, h1, List.drop_length, foa_cons_nil]

/-- Once `pos + 8 * fuel` exceeds the document length, one more unit of fuel
changes nothing: the scan position grows by at least 8 per iteration, so the
`html.length + 1` fuel given by `extract_tables` is never exhausted. -/
theorem extractLoop_stable :
    ∀ (fuel : Nat) (html : Str) (pos : Int) (acc : List Str),
      0 ≤ pos → (html.length : Int) < pos + 8 * fuel →
      extractLoop html fuel pos acc = extractLoop html (fuel + 1) pos acc := by
  intro fuel
  induction fuel with
  | zero =>
    intro html pos acc hpos hlen
    have hfind : pyFind html "<table".data pos = -1 :=
      pyFind_past_end html pos hpos (by omega)
    have h0 : extractLoop html 0 pos acc = acc.reverse := rfl
    rw [h0, extractLoop_succ, if_pos hfind]
  | succ f ih =>
    intro html pos acc hpos hlen
    rw [extractLoop_succ html f pos acc, extractLoop_succ html (f + 1) pos acc]
    by_cases h1 : pyFind html "<table".data pos = -1
    · rw [if_pos h1, if_pos h1]
    · rw [if_neg h1, if_neg h1]
      by_cases h2 : pyFind html "</table>".data (pyFind html "<table".data pos) = -1
      · rw [if_pos h2, if_pos h2]
      · rw [if_neg h2, if_neg h2]
        obtain hst | ⟨s, hs⟩ := pyFind_cases html "<table".data pos
        · exact absurd hst h1
        obtain het | ⟨e, he⟩ := pyFind_cases html "</table>".data
          (pyFind html "<table".data pos)
        · exact absurd het h2
        have hs_lt : s < html.length := pyFind_coe_lt_length hs (by simp)
        have hs_ge : pyIdx html.length pos ≤ s := (pyFind_eq_coe hs).2
        have hidx : pyIdx html.length pos = min pos.toNat html.length := by
          rw [pyIdx, if_neg (by omega)]
        rw [hs] at he
        have he_ge : pyIdx html.length ((s : Nat) : Int) ≤ e := (pyFind_eq_coe he).2
        rw [pyIdx_coe] at he_ge
        rw [hs, he]
        apply ih
        · omega
        · omega

